import Mathlib

/-!
# Verification of the SahebBackendPOC strategy-resolution and calendar-sync core

Shallow embedding of the repository's decision logic:

* `athan.service.ts` — strategy interface, the two concrete strategies
  (`CityPrayerTimeByAthanStrategy`, `CoordinatesPrayerTimeByAthanStrategy`),
  and the `AthanService` context with implicit (`getPrayerTimes`) and
  explicit (`executeStrategyByName`) resolution;
* `prayer.service.ts` — `fetchData` normalization and `getByCoordinates`;
* `db.service.ts` — `insertData` (date reformat + timing serialization);
* `calendar.service.ts` — `formatDate`, `fetchMonthlyAnnouncements`,
  `updateOfficialHijriCalendar` and the no-op-on-conflict boundary upsert.

JavaScript string primitives (`split('-')`, `join('-')`, `toLowerCase`,
`indexOf(p) == 0`, `charAt`, `parseInt` on one character, `JSON.stringify`
for the fixed timing record) are modelled as explicit Lean functions over
`List Char`, with the JS edge cases (`undefined` in `join` becomes `""`,
`undefined` in a template literal becomes `"undefined"`, `parseInt` of a
non-digit is `NaN`) reproduced.  JS numbers are modelled as `Rat` plus a
separate `NaN` constructor; `toLowerCase` is modelled on the ASCII range,
which covers every character of the relevant strategy-name alphabet.
-/

/-- JS runtime value as far as the strategy predicates observe it: a number,
the number `NaN` (which still satisfies `typeof v === 'number'`), a string,
or `undefined` (a missing field). -/
inductive JVal where
  | jnum (q : Rat)
  | jnan
  | jstr (s : String)
  | jundef
deriving DecidableEq

/-- Model of `typeof v === 'number'`: true for finite numbers and for `NaN`. -/
def typeofNumber : JVal → Bool
  | .jnum _ => true
  | .jnan => true
  | _ => false

/-- Model of the JS comparison `v > 0`: only evaluated by the source after a
`typeof === 'number'` guard, and `NaN > 0` is false in JS. -/
def jsGtZero : JVal → Bool
  | .jnum q => decide (0 < q)
  | _ => false

/-- The request payload (`PrayerTimeParams`): the source accepts an arbitrary
object and inspects fields dynamically, so each field is a `JVal`. -/
structure Params where
  lat : JVal
  lon : JVal
  method : JVal
  duration : JVal
  city : JVal
  country : JVal
deriving DecidableEq

/-- Model of JS `String.prototype.split('-')` on the character list: splits at
every `'-'`, keeping empty segments (`"".split('-') = [""]`,
`"-".split('-') = ["", ""]`). -/
def splitDash : List Char → List (List Char)
  | [] => [[]]
  | c :: rest =>
    if c = '-' then [] :: splitDash rest
    else (c :: (splitDash rest).headD []) :: (splitDash rest).tail

/-- Model of JS `Array.prototype.join('-')` on character-list segments. -/
def joinDash : List (List Char) → List Char
  | [] => []
  | [g] => g
  | g :: g' :: gs => g ++ '-' :: joinDash (g' :: gs)

/-- `date.split('-')` at the `String` level. -/
def jsSplitDash (s : String) : List String :=
  (splitDash s.data).map String.mk

/-- `[..].join('-')` at the `String` level; a missing (`undefined`) element is
already converted to `""` by the caller, matching JS `join`. -/
def jsJoinDash (l : List String) : String :=
  String.mk (joinDash (l.map String.data))

/-- Bool test that `pre` is an initial segment of `l`; models
`s.indexOf(pre) == 0` from the source. -/
def leadsWith : List Char → List Char → Bool
  | [], _ => true
  | _ :: _, [] => false
  | p :: ps, c :: cs => decide (p = c) && leadsWith ps cs

/-- ASCII lower-casing of one character, the fragment of JS `toLowerCase`
exercised by the strategy names. -/
def lowerChar (c : Char) : Char :=
  if 'A' ≤ c ∧ c ≤ 'Z' then Char.ofNat (c.toNat + 32) else c

/-- Model of `strategyName.toLowerCase()`. -/
def jsToLower (s : String) : String :=
  String.mk (s.data.map lowerChar)

/-- The literal `'athan-api-'` the source compares against. -/
def athanApiLit : List Char := "athan-api-".data

/-- Model of `parseInt(strategyName.charAt(strategyName.length - 1))`:
`charAt` of the last position (the empty string when the name is empty),
then `parseInt`, which yields the digit value or `NaN`. -/
def jsParseMethod (strategyName : String) : JVal :=
  match strategyName.data.getLast? with
  | some c => if c.isDigit then .jnum ((c.toNat - 48 : Nat) : Rat) else .jnan
  | none => .jnan

/-- `CityPrayerTimeByAthanStrategy.canHandle`: the source body is `return true`
unconditionally. -/
def cityCanHandle (_ : Params) : Bool := true

/-- `CoordinatesPrayerTimeByAthanStrategy.canHandle`: requires `lat`, `lon`,
`method`, `duration` to be numbers and `duration > 0`. -/
def coordinatesCanHandle (p : Params) : Bool :=
  typeofNumber p.lat && typeofNumber p.lon && typeofNumber p.method &&
    (typeofNumber p.duration && jsGtZero p.duration)

/-- Tag for the two concrete strategies. -/
inductive StratId where
  | coordinates
  | city
deriving DecidableEq

/-- The `AthanService.strategies` array, in its source order:
`[coordinatesPrayerTimeByAthanStrategy, CityPrayerTimeByAthanStrategy]`. -/
def strategiesList : List StratId := [StratId.coordinates, StratId.city]

/-- Dispatch of `canHandle` over the strategy tags. -/
def canHandle : StratId → Params → Bool
  | .coordinates, p => coordinatesCanHandle p
  | .city, p => cityCanHandle p

/-- Descriptor of the delegated `getPrayerTimes` call of a strategy: the
By-Coordinates strategy calls `prayerService.getByCoordinates(lat, lon,
method)`, the By-City one calls `prayerService.getByCity(city, country,
method)`; `duration` is forwarded by neither. -/
inductive FetchCall where
  | byCoordinates (lat lon method : JVal)
  | byCity (city country method : JVal)
deriving DecidableEq

/-- The delegated call a strategy issues for a given request. -/
def strategyFetchCall : StratId → Params → FetchCall
  | .coordinates, p => .byCoordinates p.lat p.lon p.method
  | .city, p => .byCity p.city p.country p.method

/-- Error taxonomy of `AthanService` (the three `throw new Error(...)` sites). -/
inductive ErrKind where
  | noStrategyFound
  | unknownStrategy
  | parametersNotValid
deriving DecidableEq

/-- `AthanService.getPrayerTimes`: find the first strategy whose `canHandle`
accepts the request and delegate to it; throw if none matches. -/
def getPrayerTimes (p : Params) : Except ErrKind FetchCall :=
  match strategiesList.find? (fun s => canHandle s p) with
  | some s => .ok (strategyFetchCall s p)
  | none => .error .noStrategyFound

/-- `AthanService.executeStrategyByName`: if the lower-cased name begins with
`'athan-api-'`, select the By-City strategy and overwrite `params['method']`
with `parseInt` of the name's last character; otherwise throw
`UnknownStrategy`.  Then re-validate with the selected strategy's
`canHandle` (throwing `ParametersNotValid` on failure) and delegate.  The
result carries the mutated params together with the delegated call. -/
def executeStrategyByName (strategyName : String) (p : Params) :
    Except ErrKind (Params × FetchCall) :=
  if leadsWith athanApiLit (jsToLower strategyName).data then
    let p' := { p with method := jsParseMethod strategyName }
    if cityCanHandle p' then .ok (p', strategyFetchCall .city p')
    else .error .parametersNotValid
  else .error .unknownStrategy

/-! ## Prayer fetch path (`prayer.service.ts`) -/

/-- The six timing fields the normalizer keeps, in the object-literal order
of `fetchData` (`Fajr, Shurooq, Dhuhr, Asr, Maghrib, Isha`). -/
structure Timings where
  Fajr : String
  Shurooq : String
  Dhuhr : String
  Asr : String
  Maghrib : String
  Isha : String
deriving DecidableEq

/-- `NormalizedPrayerDay`: one entry of the mapped result of `fetchData`. -/
structure NormalizedDay where
  date : String
  timings : Timings
deriving DecidableEq

/-- One raw upstream entry as `fetchData` reads it: `d.date.gregorian.date`
and the timing fields (the upstream name is `Sunrise`). -/
structure RawEntry where
  gregorianDate : String
  Fajr : String
  Sunrise : String
  Dhuhr : String
  Asr : String
  Maghrib : String
  Isha : String
deriving DecidableEq

/-- The per-entry mapping of `fetchData`: `Shurooq` is the upstream
`Sunrise`. -/
def normalizeEntry (d : RawEntry) : NormalizedDay :=
  { date := d.gregorianDate
    timings :=
      { Fajr := d.Fajr, Shurooq := d.Sunrise, Dhuhr := d.Dhuhr,
        Asr := d.Asr, Maghrib := d.Maghrib, Isha := d.Isha } }

/-- `PrayerService.fetchData` after the HTTP response: computes `next7Days`
(`data.slice(today.getDate() - 1, today.getDate() + 6)`, which the source
never uses) and returns the full mapped sequence. -/
def fetchData (todayDay : Nat) (data : List RawEntry) : List NormalizedDay :=
  let _next7Days := (data.drop (todayDay - 1)).take 7
  data.map normalizeEntry

/-- The current date as `getByCoordinates` reads it (`getDate`,
`getMonth() + 1`, `getFullYear`); `month` is already 1-based here. -/
structure GregDate where
  day : Nat
  month : Nat
  year : Nat

/-- `PrayerService.getByCoordinates`: one upstream GET for the current
Gregorian month/year at the given coordinates and method, fed through
`fetchData`.  The HTTP client is an opaque function of exactly the
parameters the source puts in the URL. -/
def getByCoordinates (client : JVal → JVal → JVal → Nat → Nat → List RawEntry)
    (today : GregDate) (lat lon method : JVal) : List NormalizedDay :=
  fetchData today.day (client lat lon method today.month today.year)

/-- `CoordinatesPrayerTimeByAthanStrategy.getPrayerTimes`: delegates to
`getByCoordinates` with `params.lat`, `params.lon`, `params.method`;
`params.duration` is not forwarded. -/
def coordinatesGetPrayerTimes (client : JVal → JVal → JVal → Nat → Nat → List RawEntry)
    (today : GregDate) (p : Params) : List NormalizedDay :=
  getByCoordinates client today p.lat p.lon p.method

/-! ## `DbService.insertData` (`db.service.ts`) -/

/-- JS template-literal rendering of a possibly-undefined piece:
`undefined` prints as `"undefined"`. -/
def jsTemplate (o : Option String) : String := o.getD "undefined"

/-- The date conversion inside `insertData`:
`const [day, month, year] = date.split('-')` followed by the template
literal `` `${year}-${month}-${day}` ``. -/
def dmyToYmd (date : String) : String :=
  let parts := jsSplitDash date
  jsTemplate (parts.get? 2) ++ "-" ++ jsTemplate (parts.get? 1) ++ "-" ++
    jsTemplate (parts.get? 0)

/-- Character-wise JSON string escaping as `JSON.stringify` performs it on
the timing values; control characters (below U+0020) never occur in the
timing strings and their escapes are not modelled — theorems about the
serialization therefore carry a no-control-character hypothesis. -/
def escapeChars : List Char → List Char
  | [] => []
  | c :: rest =>
    if c = '"' ∨ c = '\\' then '\\' :: c :: escapeChars rest
    else c :: escapeChars rest

/-- Literal fragments of `JSON.stringify({Fajr, Shurooq, Dhuhr, Asr,
Maghrib, Isha})`; each separator starts after the previous value's closing
quote. -/
def litFajr : List Char := "\x7b\"Fajr\":\"".data

/-- Separator before the `Shurooq` value. -/
def litShurooq : List Char := ",\"Shurooq\":\"".data

/-- Separator before the `Dhuhr` value. -/
def litDhuhr : List Char := ",\"Dhuhr\":\"".data

/-- Separator before the `Asr` value. -/
def litAsr : List Char := ",\"Asr\":\"".data

/-- Separator before the `Maghrib` value. -/
def litMaghrib : List Char := ",\"Maghrib\":\"".data

/-- Separator before the `Isha` value. -/
def litIsha : List Char := ",\"Isha\":\"".data

/-- `JSON.stringify(timings)` for the fixed six-key timing record, keys in
insertion order.  The list is kept right-nested along the
literal/value/quote structure. -/
def serializeTimings (t : Timings) : String :=
  String.mk (litFajr ++ (escapeChars t.Fajr.data ++ ('"' ::
    (litShurooq ++ (escapeChars t.Shurooq.data ++ ('"' ::
      (litDhuhr ++ (escapeChars t.Dhuhr.data ++ ('"' ::
        (litAsr ++ (escapeChars t.Asr.data ++ ('"' ::
          (litMaghrib ++ (escapeChars t.Maghrib.data ++ ('"' ::
            (litIsha ++ (escapeChars t.Isha.data ++ ('"' ::
              ['\x7d']))))))))))))))))))

/-- `true` when the string has no control character, i.e. lies in the
fragment where the modelled escaping coincides with `JSON.stringify`. -/
def noControlChars (s : String) : Bool :=
  s.data.all (fun c => 32 ≤ c.toNat)

/-- All six timing values control-character-free. -/
def cleanTimings (t : Timings) : Bool :=
  noControlChars t.Fajr && noControlChars t.Shurooq && noControlChars t.Dhuhr &&
    noControlChars t.Asr && noControlChars t.Maghrib && noControlChars t.Isha

/-- Consume an expected literal from the front of the input. -/
def dropLit : List Char → List Char → Option (List Char)
  | [], rest => some rest
  | _ :: _, [] => none
  | l :: ls, r :: rs => if l = r then dropLit ls rs else none

/-- Read an escaped JSON string body up to and including its closing
quote, undoing `escapeChars`. -/
def readStr : List Char → Option (List Char × List Char)
  | [] => none
  | c :: rest =>
    if c = '"' then some ([], rest)
    else if c = '\\' then
      match rest with
      | [] => none
      | d :: ds => (readStr ds).map (fun p => (d :: p.1, p.2))
    else (readStr rest).map (fun p => (c :: p.1, p.2))

/-- Reconstruction function for the serialized timing blob: parses the
fixed six-key object back into a `Timings`.  This is the inverse the
"reconstructable" claim asserts to exist; it is not part of the source. -/
def parseTimings (s : String) : Option Timings := do
  let r ← dropLit litFajr s.data
  let (fa, r) ← readStr r
  let r ← dropLit litShurooq r
  let (sh, r) ← readStr r
  let r ← dropLit litDhuhr r
  let (dh, r) ← readStr r
  let r ← dropLit litAsr r
  let (as, r) ← readStr r
  let r ← dropLit litMaghrib r
  let (ma, r) ← readStr r
  let r ← dropLit litIsha r
  let (ish, r) ← readStr r
  let r ← dropLit ['\x7d'] r
  if r = [] then
    some ⟨String.mk fa, String.mk sh, String.mk dh, String.mk as,
      String.mk ma, String.mk ish⟩
  else none

/-- A row of the `athan_calendar` insert: `(athan_school_id, city_id, date,
data)` in the column order of the SQL statement. -/
abbrev CalendarRow := Int × Int × String × String

/-- `DbService.insertData`: for each record, reformat its `date` from
day-month-year to year-month-day, serialize its timing map, and issue one
`INSERT INTO athan_calendar (athan_school_id, city_id, date, data)`.  The
`for .. in` loop walks the array indices in order; the produced statements
are returned as a list of rows. -/
def insertData (athan_school_id city_id : Int) (data : List NormalizedDay) :
    List CalendarRow :=
  data.map (fun d =>
    (athan_school_id, city_id, dmyToYmd d.date, serializeTimings d.timings))

/-! ## Hijri calendar synchronizer (`calendar.service.ts`) -/

/-- `HijriService.formatDate`: split on `'-'` and re-join the components in
the order `[parts[2], parts[1], parts[0]]`; JS `join` renders a missing
(`undefined`) element as the empty string. -/
def formatDate (date : String) : String :=
  let parts := jsSplitDash date
  jsJoinDash [(parts.getD 2 ""), (parts.getD 1 ""), (parts.getD 0 "")]

/-- One upstream day of the Gregorian-to-Hijri table, flattened to the two
fields the synchronizer reads: `day.gregorian.date` and `day.hijri.date`. -/
structure DayPair where
  gregorian : String
  hijri : String
deriving DecidableEq

/-- `HijriService.fetchMonthlyAnnouncements`: for each month `1..12` in
order, fetch the month's day list and keep `days[0]` and
`days[days.length - 1]` (`none` models JS `undefined` on an empty list).
The upstream endpoint is an opaque function from the month number. -/
def fetchMonthlyAnnouncements (upstream : Nat → List DayPair) :
    List (Nat × Option DayPair × Option DayPair) :=
  (List.range' 1 12).map (fun month =>
    (month, (upstream month).head?, (upstream month).getLast?))

/-- The `hijri_calendar` table: rows `(month, hijri_first_day,
hijri_last_day)` in the column order of the INSERT.  Modelled from the
spec: the table schema is not in the sources, and the spec defines the
upsert as keyed on the `month` column (unique key there), with
`ON DUPLICATE KEY UPDATE hijri_first_day=hijri_first_day, ...` leaving a
conflicting row unchanged. -/
abbrev HijriTable := List (String × String × String)

/-- Key-presence test on the `month` column. -/
def hasKey (t : HijriTable) (k : String) : Bool :=
  t.any (fun r => r.1 = k)

/-- Lookup of a row by its `month`-column key. -/
def lookupBoundary (t : HijriTable) (k : String) :
    Option (String × String × String) :=
  t.find? (fun r => r.1 = k)

/-- The INSERT with its self-assigning `ON DUPLICATE KEY UPDATE` clause:
insert when the key is absent, leave the table unchanged when present. -/
def upsertBoundary (t : HijriTable) (k v₁ v₂ : String) : HijriTable :=
  if hasKey t k then t else t ++ [(k, v₁, v₂)]

/-- The body of the month loop of `updateOfficialHijriCalendar`: build
`params = [formatDate(firstDay.gregorian.date),
formatDate(firstDay.hijri.date), formatDate(lastDay.hijri.date)]`, push it
onto `answer`, and execute the upsert with those three column values (the
first lands in the `month` column).  A month whose `first`/`last` is
`undefined` makes the property access throw: modelled as `none`. -/
def syncGo : List (Nat × Option DayPair × Option DayPair) →
    List (List String) → HijriTable → Option (List (List String) × HijriTable)
  | [], answer, t => some (answer, t)
  | (_, some firstDay, some lastDay) :: rest, answer, t =>
    let g := formatDate firstDay.gregorian
    let h₁ := formatDate firstDay.hijri
    let h₂ := formatDate lastDay.hijri
    syncGo rest (answer ++ [[g, h₁, h₂]]) (upsertBoundary t g h₁ h₂)
  | _ :: _, _, _ => none

/-- `HijriService.updateOfficialHijriCalendar`: fetch the twelve monthly
announcements, return early when the calendar is empty (the source returns
`undefined`, merged here with the throwing path as `none`), otherwise run
the month loop, returning `answer` and the updated table. -/
def updateOfficialHijriCalendar (upstream : Nat → List DayPair)
    (t : HijriTable) : Option (List (List String) × HijriTable) :=
  let calendar := fetchMonthlyAnnouncements upstream
  if calendar.isEmpty then none else syncGo calendar [] t

/-! ## Proof-side views of the month loop -/

/-- The answer row the month loop produces for one fetched entry. -/
def entryRow : Nat × Option DayPair × Option DayPair → List String
  | (_, some firstDay, some lastDay) =>
    [formatDate firstDay.gregorian, formatDate firstDay.hijri,
      formatDate lastDay.hijri]
  | _ => []

/-- The `month`-column key the month loop writes for one fetched entry. -/
def entryKey : Nat × Option DayPair × Option DayPair → String
  | (_, some firstDay, _) => formatDate firstDay.gregorian
  | _ => ""

/-- The table transition of one iteration of the month loop. -/
def stepTable (t : HijriTable) : Nat × Option DayPair × Option DayPair → HijriTable
  | (_, some firstDay, some lastDay) =>
    upsertBoundary t (formatDate firstDay.gregorian)
      (formatDate firstDay.hijri) (formatDate lastDay.hijri)
  | _ => t

/-- Both boundary days present for every month of the list. -/
def allSome (lst : List (Nat × Option DayPair × Option DayPair)) : Prop :=
  ∀ e ∈ lst, e.2.1.isSome ∧ e.2.2.isSome

/-- Decidable equality of results, used to evaluate the claim theorems on
concrete inputs. -/
instance {ε α : Type} [DecidableEq ε] [DecidableEq α] :
    DecidableEq (Except ε α) := fun x y =>
  match x, y with
  | .ok a, .ok b =>
    if h : a = b then .isTrue (by rw [h])
    else .isFalse (by intro hh; cases hh; exact h rfl)
  | .error a, .error b =>
    if h : a = b then .isTrue (by rw [h])
    else .isFalse (by intro hh; cases hh; exact h rfl)
  | .ok _, .error _ => .isFalse (by intro hh; cases hh)
  | .error _, .ok _ => .isFalse (by intro hh; cases hh)

/-! ## Concrete payloads used by the witnesses -/

/-- A city-shaped request payload. -/
def cityParamsEx : Params :=
  ⟨.jundef, .jundef, .jnum 2, .jnum 30, .jstr "Rabat", .jstr "Morocco"⟩

/-- Another city-shaped request payload. -/
def egyptParamsEx : Params :=
  ⟨.jundef, .jundef, .jundef, .jundef, .jstr "Cairo", .jstr "Egypt"⟩

/-- A coordinate-shaped request payload with duration 30. -/
def coordParamsEx : Params :=
  ⟨.jnum 33, .jnum (-7), .jnum 2, .jnum 30, .jundef, .jundef⟩

/-- The same coordinates as `coordParamsEx` but duration 7. -/
def coordParamsEx2 : Params :=
  ⟨.jnum 33, .jnum (-7), .jnum 2, .jnum 7, .jundef, .jundef⟩

/-- One raw upstream day entry. -/
def rawEntryEx : RawEntry :=
  ⟨"01-01-2025", "04:00", "05:30", "12:30", "16:00", "19:00", "20:30"⟩

/-- A constant upstream client for the coordinates path. -/
def clientEx : JVal → JVal → JVal → Nat → Nat → List RawEntry :=
  fun _ _ _ _ _ => [rawEntryEx]

/-- One current date. -/
def dateEx : GregDate := ⟨5, 1, 2025⟩

/-- One timing record. -/
def timingsEx : Timings := ⟨"04:00", "05:30", "12:30", "16:00", "19:00", "20:30"⟩

/-- An upstream Gregorian-to-Hijri table whose every month is the same
single day. -/
def hijriUpstreamCx : Nat → List DayPair := fun _ => [⟨"2025-01-01", "1446-07-02"⟩]

/-- A second such upstream table with different dates. -/
def hijriUpstreamEx : Nat → List DayPair := fun _ => [⟨"2026-02-03", "1447-08-09"⟩]

/-- The answer `hijriUpstreamEx` produces. -/
def hijriAnswerEx : List (List String) :=
  List.replicate 12 ["03-02-2026", "09-08-1447", "09-08-1447"]

/-- The table `hijriUpstreamEx` produces from an empty table. -/
def hijriTableEx : HijriTable := [("03-02-2026", "09-08-1447", "09-08-1447")]

/-- The boundary day every month of `hijriUpstreamEx2` shares. -/
def dayPairEx : DayPair := ⟨"2025-03-01", "1446-09-01"⟩

/-- A third constant upstream table. -/
def hijriUpstreamEx2 : Nat → List DayPair := fun _ => [dayPairEx]


/-! ## Lemmas: the split/join pair -/

/-- The data of a constructed string. -/
theorem data_mk (l : List Char) : (String.mk l).data = l := rfl

/-- `splitDash` always produces at least one segment. -/
theorem splitDash_ne_nil (l : List Char) : splitDash l ≠ [] := by
  cases l with
  | nil => simp [splitDash]
  | cons c rest =>
    simp only [splitDash]
    by_cases h : c = '-' <;> simp [h]

/-- Re-joining the split segments restores the character list. -/
theorem joinDash_splitDash (l : List Char) : joinDash (splitDash l) = l := by
  induction l with
  | nil => rfl
  | cons c rest ih =>
    simp only [splitDash]
    by_cases h : c = '-'
    · subst h
      simp only [if_pos rfl]
      cases hr : splitDash rest with
      | nil => exact absurd hr (splitDash_ne_nil rest)
      | cons g gs =>
        rw [hr] at ih
        simp only [joinDash]
        rw [ih]
        rfl
    · simp only [if_neg h]
      cases hr : splitDash rest with
      | nil => exact absurd hr (splitDash_ne_nil rest)
      | cons g gs =>
        rw [hr] at ih
        cases gs with
        | nil =>
          simp only [List.headD, List.tail, joinDash] at ih ⊢
          rw [ih]
        | cons g' gs' =>
          simp only [List.headD, List.tail, joinDash] at ih ⊢
          simp only [List.cons_append, ih]

/-- A dash-free list splits into the single segment it is. -/
theorem splitDash_of_noDash (l : List Char) (h : ∀ c ∈ l, c ≠ '-') :
    splitDash l = [l] := by
  induction l with
  | nil => rfl
  | cons c rest ih =>
    have hc : c ≠ '-' := h c (List.mem_cons_self c rest)
    have hr := ih (fun x hx => h x (List.mem_cons_of_mem c hx))
    simp [splitDash, hc, hr]

/-- Splitting a list that starts with a dash-free chunk, a dash, and a
remainder yields that chunk followed by the split of the remainder. -/
theorem splitDash_append (xs ys : List Char) (h : ∀ c ∈ xs, c ≠ '-') :
    splitDash (xs ++ '-' :: ys) = xs :: splitDash ys := by
  induction xs with
  | nil => simp [splitDash]
  | cons c rest ih =>
    have hc : c ≠ '-' := h c (List.mem_cons_self c rest)
    have hr := ih (fun x hx => h x (List.mem_cons_of_mem c hx))
    show splitDash (c :: (rest ++ '-' :: ys)) = (c :: rest) :: splitDash ys
    rw [splitDash, if_neg hc, hr]
    rfl

/-- Every segment produced by `splitDash` is dash-free. -/
theorem mem_splitDash_noDash (l : List Char) :
    ∀ g ∈ splitDash l, ∀ c ∈ g, c ≠ '-' := by
  induction l with
  | nil =>
    intro g hg
    simp [splitDash] at hg
    simp [hg]
  | cons c rest ih =>
    intro g hg
    simp only [splitDash] at hg
    by_cases h : c = '-'
    · rw [if_pos h] at hg
      rcases List.mem_cons.mp hg with h1 | h1
      · simp [h1]
      · exact ih g h1
    · rw [if_neg h] at hg
      cases hr : splitDash rest with
      | nil => exact absurd hr (splitDash_ne_nil rest)
      | cons g0 gs =>
        rw [hr] at hg
        simp only [List.headD, List.tail] at hg
        rcases List.mem_cons.mp hg with h1 | h1
        · subst h1
          intro x hx
          rcases List.mem_cons.mp hx with h2 | h2
          · simpa [h2] using h
          · exact ih g0 (hr ▸ List.mem_cons_self g0 gs) x h2
        · exact ih g (hr ▸ List.mem_cons_of_mem g0 h1)

/-! ## Lemmas: case-insensitive name matching -/

/-- Lower-casing preserves an initial-segment match against a pattern whose
characters are fixed by `lowerChar`. -/
theorem leadsWith_map_lower (pre : List Char) :
    ∀ l : List Char, (∀ c ∈ pre, lowerChar c = c) → leadsWith pre l = true →
      leadsWith pre (l.map lowerChar) = true := by
  induction pre with
  | nil => intro l _ _; rfl
  | cons p ps ih =>
    intro l hfix hl
    cases l with
    | nil => simp [leadsWith] at hl
    | cons c cs =>
      simp only [leadsWith, Bool.and_eq_true, decide_eq_true_eq] at hl
      obtain ⟨rfl, htail⟩ := hl
      have hp : lowerChar p = p := hfix p (List.mem_cons_self p ps)
      simp only [List.map_cons, leadsWith, hp, decide_eq_true_eq,
        Bool.and_eq_true]
      exact ⟨trivial, ih cs (fun c hc => hfix c (List.mem_cons_of_mem p hc)) htail⟩

/-! ## Lemmas: the timing serialization and its inverse -/

/-- Consuming a literal that is actually there succeeds and leaves the
remainder. -/
theorem dropLit_append (l : List Char) :
    ∀ r : List Char, dropLit l (l ++ r) = some r := by
  induction l with
  | nil => intro r; rfl
  | cons c cs ih =>
    intro r
    simp only [List.cons_append, dropLit, if_pos rfl]
    exact ih r

/-- Unified cons-step equation for `readStr`. -/
theorem readStr_cons (c : Char) (rest : List Char) :
    readStr (c :: rest) =
      if c = '"' then some ([], rest)
      else if c = '\\' then
        match rest with
        | [] => none
        | d :: ds => (readStr ds).map (fun p => (d :: p.1, p.2))
      else (readStr rest).map (fun p => (c :: p.1, p.2)) := by
  cases rest with
  | nil => rw [readStr.eq_2]
  | cons d ds => rw [readStr.eq_3]

/-- Reading an escaped value followed by its closing quote returns the
original value and the remainder. -/
theorem readStr_escape (s : List Char) :
    ∀ r : List Char, readStr (escapeChars s ++ '"' :: r) = some (s, r) := by
  induction s with
  | nil =>
    intro r
    show readStr ('"' :: r) = some ([], r)
    rw [readStr_cons]
    simp
  | cons c cs ih =>
    intro r
    by_cases h : c = '"' ∨ c = '\\'
    · rw [escapeChars, if_pos h]
      show readStr ('\\' :: c :: (escapeChars cs ++ '"' :: r)) = some (c :: cs, r)
      rw [readStr.eq_3, if_neg (by decide), if_pos rfl, ih r]
      rfl
    · push_neg at h
      obtain ⟨hq, hb⟩ := h
      rw [escapeChars, if_neg (by tauto)]
      show readStr (c :: (escapeChars cs ++ '"' :: r)) = some (c :: cs, r)
      rw [readStr_cons, if_neg hq, if_neg hb, ih r]
      rfl

/-- The serialized timing blob parses back to the original record: the
serialization is lossless. -/
theorem parseTimings_serializeTimings (t : Timings) :
    parseTimings (serializeTimings t) = some t := by
  obtain ⟨f₁, f₂, f₃, f₄, f₅, f₆⟩ := t
  simp only [parseTimings, serializeTimings, data_mk, dropLit_append,
    readStr_escape, Option.bind_eq_bind, Option.some_bind]
  norm_num [dropLit]

/-! ## Lemmas: the boundary upsert and the month loop -/

/-- Characterization of a successful month loop: the answer extends by one
row per month and the table is the fold of the upserts. -/
theorem syncGo_eq_of_allSome (lst : List (Nat × Option DayPair × Option DayPair)) :
    ∀ (answer : List (List String)) (t : HijriTable), allSome lst →
      syncGo lst answer t =
        some (answer ++ lst.map entryRow, lst.foldl stepTable t) := by
  induction lst with
  | nil => intro answer t _; simp [syncGo]
  | cons e rest ih =>
    intro answer t h
    obtain ⟨m, of, ol⟩ := e
    obtain ⟨h1, h2⟩ := h _ (List.mem_cons_self _ rest)
    obtain ⟨fd, rfl⟩ := Option.isSome_iff_exists.mp h1
    obtain ⟨ld, rfl⟩ := Option.isSome_iff_exists.mp h2
    rw [syncGo, ih _ _ (fun x hx => h x (List.mem_cons_of_mem _ hx))]
    simp [entryRow, stepTable, List.foldl_cons]

/-- A successful month loop implies every month had both boundary days. -/
theorem allSome_of_syncGo_some (lst : List (Nat × Option DayPair × Option DayPair)) :
    ∀ (answer : List (List String)) (t : HijriTable) p,
      syncGo lst answer t = some p → allSome lst := by
  induction lst with
  | nil => intro _ _ _ _; intro e he; simp at he
  | cons e rest ih =>
    intro answer t p hp
    obtain ⟨m, of, ol⟩ := e
    cases of with
    | none => simp [syncGo] at hp
    | some fd =>
      cases ol with
      | none => simp [syncGo] at hp
      | some ld =>
        rw [syncGo] at hp
        intro e he
        rcases List.mem_cons.mp he with h1 | h1
        · subst h1; exact ⟨rfl, rfl⟩
        · exact ih _ _ _ hp e h1

/-- Key membership after an upsert. -/
theorem hasKey_upsertBoundary (t : HijriTable) (k v₁ v₂ k' : String) :
    hasKey (upsertBoundary t k v₁ v₂) k' = (hasKey t k' || decide (k = k')) := by
  by_cases h : hasKey t k = true
  · rw [upsertBoundary, if_pos h]
    by_cases hk : k = k'
    · subst hk; simp [h]
    · simp [hk]
  · rw [upsertBoundary, if_neg h]
    simp [hasKey, List.any_append]

/-- An upsert never changes the row an existing key maps to. -/
theorem lookupBoundary_upsertBoundary (t : HijriTable) (k v₁ v₂ k' : String)
    (r : String × String × String) (h : lookupBoundary t k' = some r) :
    lookupBoundary (upsertBoundary t k v₁ v₂) k' = some r := by
  by_cases hk : hasKey t k = true
  · rw [upsertBoundary, if_pos hk]; exact h
  · rw [upsertBoundary, if_neg hk, lookupBoundary, List.find?_append]
    rw [lookupBoundary] at h
    simp [h]

/-- An upsert at a key already present is a no-op. -/
theorem upsertBoundary_of_hasKey (t : HijriTable) (k v₁ v₂ : String)
    (h : hasKey t k = true) : upsertBoundary t k v₁ v₂ = t := by
  rw [upsertBoundary, if_pos h]

/-- A single loop iteration preserves key membership. -/
theorem hasKey_stepTable (t : HijriTable) (e : Nat × Option DayPair × Option DayPair)
    (k : String) (h : hasKey t k = true) : hasKey (stepTable t e) k = true := by
  obtain ⟨m, of, ol⟩ := e
  cases of with
  | none => simpa [stepTable] using h
  | some fd =>
    cases ol with
    | none => simpa [stepTable] using h
    | some ld => simp [stepTable, hasKey_upsertBoundary, h]

/-- The whole fold preserves key membership. -/
theorem hasKey_foldl_stepTable (lst : List (Nat × Option DayPair × Option DayPair)) :
    ∀ (t : HijriTable) (k : String), hasKey t k = true →
      hasKey (lst.foldl stepTable t) k = true := by
  induction lst with
  | nil => intro t k h; exact h
  | cons e rest ih =>
    intro t k h
    exact ih _ _ (hasKey_stepTable t e k h)

/-- A single loop iteration preserves the row of an existing key. -/
theorem lookupBoundary_stepTable (t : HijriTable)
    (e : Nat × Option DayPair × Option DayPair) (k : String)
    (r : String × String × String) (h : lookupBoundary t k = some r) :
    lookupBoundary (stepTable t e) k = some r := by
  obtain ⟨m, of, ol⟩ := e
  cases of with
  | none => simpa [stepTable] using h
  | some fd =>
    cases ol with
    | none => simpa [stepTable] using h
    | some ld => exact lookupBoundary_upsertBoundary _ _ _ _ _ _ h

/-- The whole fold preserves the row of an existing key. -/
theorem lookupBoundary_foldl_stepTable
    (lst : List (Nat × Option DayPair × Option DayPair)) :
    ∀ (t : HijriTable) (k : String) (r : String × String × String),
      lookupBoundary t k = some r →
      lookupBoundary (lst.foldl stepTable t) k = some r := by
  induction lst with
  | nil => intro t k r h; exact h
  | cons e rest ih =>
    intro t k r h
    exact ih _ _ _ (lookupBoundary_stepTable t e k r h)

/-- After the fold, every processed month's key is present. -/
theorem hasKey_foldl_entryKey (lst : List (Nat × Option DayPair × Option DayPair)) :
    ∀ (t : HijriTable), allSome lst → ∀ e ∈ lst,
      hasKey (lst.foldl stepTable t) (entryKey e) = true := by
  induction lst with
  | nil => intro t _ e he; simp at he
  | cons e0 rest ih =>
    intro t h e he
    rcases List.mem_cons.mp he with h1 | h1
    · subst h1
      obtain ⟨hs1, hs2⟩ := h _ (List.mem_cons_self _ rest)
      obtain ⟨m, of, ol⟩ := e
      obtain ⟨fd, rfl⟩ := Option.isSome_iff_exists.mp hs1
      obtain ⟨ld, rfl⟩ := Option.isSome_iff_exists.mp hs2
      rw [List.foldl_cons]
      refine hasKey_foldl_stepTable rest _ _ ?_
      simp [stepTable, entryKey, hasKey_upsertBoundary]
    · exact ih _ (fun x hx => h x (List.mem_cons_of_mem _ hx)) e h1

/-- Folding over months whose keys are all already present is a no-op. -/
theorem foldl_stepTable_of_hasKey (lst : List (Nat × Option DayPair × Option DayPair)) :
    ∀ (t : HijriTable), allSome lst →
      (∀ e ∈ lst, hasKey t (entryKey e) = true) →
      lst.foldl stepTable t = t := by
  induction lst with
  | nil => intro t _ _; rfl
  | cons e rest ih =>
    intro t h hk
    obtain ⟨hs1, hs2⟩ := h _ (List.mem_cons_self _ rest)
    obtain ⟨m, of, ol⟩ := e
    obtain ⟨fd, rfl⟩ := Option.isSome_iff_exists.mp hs1
    obtain ⟨ld, rfl⟩ := Option.isSome_iff_exists.mp hs2
    have hstep : stepTable t (m, some fd, some ld) = t := by
      have := hk _ (List.mem_cons_self _ rest)
      simp only [entryKey] at this
      simp [stepTable, upsertBoundary_of_hasKey _ _ _ _ this]
    rw [List.foldl_cons, hstep]
    exact ih t (fun x hx => h x (List.mem_cons_of_mem _ hx))
      (fun x hx => hk x (List.mem_cons_of_mem _ hx))

/-- Running the fold twice over the same months equals running it once. -/
theorem foldl_stepTable_idem (lst : List (Nat × Option DayPair × Option DayPair))
    (t : HijriTable) (h : allSome lst) :
    lst.foldl stepTable (lst.foldl stepTable t) = lst.foldl stepTable t :=
  foldl_stepTable_of_hasKey lst _ h (hasKey_foldl_entryKey lst t h)

/-! ## Claim theorems -/

/-- C1: for every strategy name that starts with the literal `'athan-api-'`,
`executeStrategyByName` selects the By-City strategy and overrides the
request's `method` field with the integer parsed from the single last
character of the whole name; in particular `"athan-api-3"` yields
`method = 3` and `"athan-api-12"` yields `method = 2`, not 12. -/
theorem executeStrategyByName_athanApi_overrides_method
    (strategyName : String) (p : Params)
    (h : leadsWith athanApiLit strategyName.data = true) :
    executeStrategyByName strategyName p =
      .ok ({ p with method := jsParseMethod strategyName },
        FetchCall.byCity p.city p.country (jsParseMethod strategyName))
    ∧ jsParseMethod "athan-api-3" = JVal.jnum 3
    ∧ jsParseMethod "athan-api-12" = JVal.jnum 2 := by
  refine ⟨?_, by decide, by decide⟩
  have hlow : leadsWith athanApiLit (jsToLower strategyName).data = true := by
    show leadsWith athanApiLit (strategyName.data.map lowerChar) = true
    exact leadsWith_map_lower athanApiLit strategyName.data (by decide) h
  simp [executeStrategyByName, hlow, cityCanHandle, strategyFetchCall]

/-- Witness for C1 at the name `"athan-api-12"`. -/
theorem executeStrategyByName_athanApi_overrides_method_witness :
    leadsWith athanApiLit "athan-api-12".data = true ∧
      (executeStrategyByName "athan-api-12" cityParamsEx =
        .ok ({ cityParamsEx with method := jsParseMethod "athan-api-12" },
          FetchCall.byCity cityParamsEx.city cityParamsEx.country
            (jsParseMethod "athan-api-12"))
       ∧ jsParseMethod "athan-api-3" = JVal.jnum 3
       ∧ jsParseMethod "athan-api-12" = JVal.jnum 2) :=
  ⟨by decide,
    executeStrategyByName_athanApi_overrides_method "athan-api-12" cityParamsEx
      (by decide)⟩

/-- C2: implicit resolution selects By-Coordinates exactly when `lat`, `lon`,
`method` are numbers and `duration` is a number greater than 0; any request
missing one of these conditions falls through to By-City instead of
failing. -/
theorem getPrayerTimes_resolution (p : Params) :
    ((typeofNumber p.lat && typeofNumber p.lon && typeofNumber p.method &&
        (typeofNumber p.duration && jsGtZero p.duration)) = true →
      getPrayerTimes p = .ok (FetchCall.byCoordinates p.lat p.lon p.method))
    ∧ ((typeofNumber p.lat && typeofNumber p.lon && typeofNumber p.method &&
        (typeofNumber p.duration && jsGtZero p.duration)) = false →
      getPrayerTimes p = .ok (FetchCall.byCity p.city p.country p.method)) := by
  constructor
  · intro h
    simp [getPrayerTimes, strategiesList, List.find?_cons, canHandle,
      coordinatesCanHandle, h, strategyFetchCall]
  · intro h
    simp [getPrayerTimes, strategiesList, List.find?_cons, canHandle,
      coordinatesCanHandle, h, cityCanHandle, strategyFetchCall]

/-- Witness for C2: a full coordinate request resolves to By-Coordinates, a
request without numeric coordinates resolves to By-City. -/
theorem getPrayerTimes_resolution_witness :
    getPrayerTimes coordParamsEx =
      .ok (FetchCall.byCoordinates coordParamsEx.lat coordParamsEx.lon
        coordParamsEx.method)
    ∧ getPrayerTimes cityParamsEx =
      .ok (FetchCall.byCity cityParamsEx.city cityParamsEx.country
        cityParamsEx.method) :=
  ⟨(getPrayerTimes_resolution coordParamsEx).1 (by decide),
   (getPrayerTimes_resolution cityParamsEx).2 (by decide)⟩

/-- C5 counterexample: `"ATHAN-API-3"` does not start with the literal
`'athan-api-'`, yet `executeStrategyByName` does not fail with
`UnknownStrategy` on it (the source lower-cases the name first), so the
claim as stated is false. -/
theorem executeStrategyByName_unknown_counterexample :
    leadsWith athanApiLit "ATHAN-API-3".data = false ∧
      executeStrategyByName "ATHAN-API-3" egyptParamsEx ≠
        Except.error ErrKind.unknownStrategy := by decide

/-- C5 amended: for every strategy name whose lower-cased form does not start
with `'athan-api-'` (for example `"unknown-x"`), `executeStrategyByName`
fails with `UnknownStrategy`; the error is raised before any strategy is
selected, so no strategy's fetch is executed. -/
theorem executeStrategyByName_unknown_strategy
    (strategyName : String) (p : Params)
    (h : leadsWith athanApiLit (jsToLower strategyName).data = false) :
    executeStrategyByName strategyName p = .error .unknownStrategy := by
  simp [executeStrategyByName, h]

/-- Witness for the amended C5 at the name `"unknown-x"`. -/
theorem executeStrategyByName_unknown_strategy_witness :
    leadsWith athanApiLit (jsToLower "unknown-x").data = false ∧
      executeStrategyByName "unknown-x" cityParamsEx =
        .error ErrKind.unknownStrategy :=
  ⟨by decide,
    executeStrategyByName_unknown_strategy "unknown-x" cityParamsEx (by decide)⟩

/-- C6: implicit resolution never fails with `NoStrategyFound`: the By-City
strategy's `canHandle` is unconditionally true, so the no-strategy branch
of `getPrayerTimes` is unreachable. -/
theorem getPrayerTimes_never_noStrategyFound (p : Params) :
    getPrayerTimes p ≠ Except.error ErrKind.noStrategyFound := by
  by_cases h : coordinatesCanHandle p = true
  · simp [getPrayerTimes, strategiesList, List.find?_cons, canHandle, h]
  · simp [getPrayerTimes, strategiesList, List.find?_cons, canHandle,
      cityCanHandle, h]

/-- Witness for C6 at a concrete payload. -/
theorem getPrayerTimes_never_noStrategyFound_witness :
    getPrayerTimes egyptParamsEx ≠ Except.error ErrKind.noStrategyFound :=
  getPrayerTimes_never_noStrategyFound egyptParamsEx

/-- C7: `executeStrategyByName` re-validates the request with the selected
strategy's `canHandle`, but the only selectable strategy is By-City whose
`canHandle` is unconditionally true, so the `ParametersNotValid` failure
can never occur, for any name and any payload. -/
theorem executeStrategyByName_never_parametersNotValid
    (strategyName : String) (p : Params) :
    executeStrategyByName strategyName p ≠
      Except.error ErrKind.parametersNotValid := by
  by_cases h : leadsWith athanApiLit (jsToLower strategyName).data = true
  · simp [executeStrategyByName, h, cityCanHandle]
  · simp [executeStrategyByName, h]

/-- Witness for C7 at a concrete name and payload. -/
theorem executeStrategyByName_never_parametersNotValid_witness :
    executeStrategyByName "athan-api-9" coordParamsEx ≠
      Except.error ErrKind.parametersNotValid :=
  executeStrategyByName_never_parametersNotValid "athan-api-9" coordParamsEx

/-- C9: the By-Coordinates fetch result is the full mapped sequence of
upstream entries for the current Gregorian month; two accepted coordinate
requests differing only in their (positive) durations produce identical
results, and the result window is never bounded or extended by the
duration. -/
theorem coordinatesFetch_ignores_duration
    (client : JVal → JVal → JVal → Nat → Nat → List RawEntry) (today : GregDate)
    (p₁ p₂ : Params)
    (h₁ : coordinatesCanHandle p₁ = true) (h₂ : coordinatesCanHandle p₂ = true)
    (hlat : p₁.lat = p₂.lat) (hlon : p₁.lon = p₂.lon)
    (hmethod : p₁.method = p₂.method) (hcity : p₁.city = p₂.city)
    (hcountry : p₁.country = p₂.country) :
    coordinatesGetPrayerTimes client today p₁ =
      coordinatesGetPrayerTimes client today p₂
    ∧ coordinatesGetPrayerTimes client today p₁ =
        (client p₁.lat p₁.lon p₁.method today.month today.year).map
          normalizeEntry
    ∧ (coordinatesGetPrayerTimes client today p₁).length =
        (client p₁.lat p₁.lon p₁.method today.month today.year).length := by
  refine ⟨?_, rfl, ?_⟩
  · rw [coordinatesGetPrayerTimes, coordinatesGetPrayerTimes,
      hlat, hlon, hmethod]
  · exact List.length_map _ _

/-- Witness for C9: the same coordinates with durations 30 and 7. -/
theorem coordinatesFetch_ignores_duration_witness :
    coordinatesGetPrayerTimes clientEx dateEx coordParamsEx =
      coordinatesGetPrayerTimes clientEx dateEx coordParamsEx2
    ∧ coordinatesGetPrayerTimes clientEx dateEx coordParamsEx =
        (clientEx coordParamsEx.lat coordParamsEx.lon coordParamsEx.method
          dateEx.month dateEx.year).map normalizeEntry
    ∧ (coordinatesGetPrayerTimes clientEx dateEx coordParamsEx).length =
        (clientEx coordParamsEx.lat coordParamsEx.lon coordParamsEx.method
          dateEx.month dateEx.year).length :=
  coordinatesFetch_ignores_duration clientEx dateEx coordParamsEx coordParamsEx2
    (by decide) (by decide) rfl rfl rfl rfl rfl

/-- C8: `insertData` turns each record into a row `(strategyId, cityId,
date, data)` whose date is the record's date reformatted from
day-month-year to year-month-day (`"25-07-2024"` becomes `"2024-07-25"`)
and whose data blob is the serialized timing map, from which the original
map is reconstructable. -/
theorem insertData_rows (athan_school_id city_id : Int)
    (data : List NormalizedDay)
    (hclean : ∀ d ∈ data, cleanTimings d.timings = true) :
    insertData athan_school_id city_id data =
      data.map (fun d =>
        (athan_school_id, city_id, dmyToYmd d.date, serializeTimings d.timings))
    ∧ (∀ d ∈ data, parseTimings (serializeTimings d.timings) = some d.timings)
    ∧ dmyToYmd "25-07-2024" = "2024-07-25" :=
  ⟨rfl, fun d _ => parseTimings_serializeTimings d.timings, by decide⟩

/-- Witness for C8 at the record of the spec's example. -/
theorem insertData_rows_witness :
    (∀ d ∈ [NormalizedDay.mk "25-07-2024" timingsEx],
      cleanTimings d.timings = true)
    ∧ (insertData 1 2 [NormalizedDay.mk "25-07-2024" timingsEx] =
        [NormalizedDay.mk "25-07-2024" timingsEx].map (fun d =>
          ((1 : Int), (2 : Int), dmyToYmd d.date, serializeTimings d.timings))
       ∧ (∀ d ∈ [NormalizedDay.mk "25-07-2024" timingsEx],
           parseTimings (serializeTimings d.timings) = some d.timings)
       ∧ dmyToYmd "25-07-2024" = "2024-07-25") :=
  ⟨by decide, insertData_rows 1 2 [NormalizedDay.mk "25-07-2024" timingsEx]
    (by decide)⟩

/-- `String.mk` of a string's own data is that string. -/
theorem mk_data (s : String) : String.mk s.data = s := rfl

/-- Concatenation with a dash, at the data level. -/
theorem append_dash (x y : String) :
    x ++ "-" ++ y = String.mk (x.data ++ '-' :: y.data) := by
  obtain ⟨xd⟩ := x
  obtain ⟨yd⟩ := y
  show String.mk ((xd ++ ['-']) ++ yd) = String.mk (xd ++ '-' :: yd)
  rw [List.append_assoc]
  rfl

/-- `formatDate` on a three-component split re-joins in reversed order. -/
theorem formatDate_of_splitThree (u x y z : String)
    (hu : jsSplitDash u = [x, y, z]) :
    formatDate u = jsJoinDash [z, y, x] := by
  simp only [formatDate, hu]
  rfl

/-- C10: on a date string of exactly three non-empty dash-separated
components, `formatDate` reverses the component order, so it is an
involution, and the day-month-year to year-month-day conversion inside
`insertData` is its exact inverse: both round-trips restore the original
string. -/
theorem formatDate_involution (s a b c : String)
    (hsplit : jsSplitDash s = [a, b, c])
    (ha : a ≠ "") (hb : b ≠ "") (hc : c ≠ "") :
    formatDate (formatDate s) = s ∧ dmyToYmd (formatDate s) = s := by
  have h0 : splitDash s.data = [a.data, b.data, c.data] := by
    have h1 := congrArg (List.map String.data) hsplit
    simpa [jsSplitDash, List.map_map, Function.comp_def, data_mk,
      List.map_id] using h1
  have hna : ∀ ch ∈ a.data, ch ≠ '-' :=
    mem_splitDash_noDash s.data a.data (by rw [h0]; simp)
  have hnb : ∀ ch ∈ b.data, ch ≠ '-' :=
    mem_splitDash_noDash s.data b.data (by rw [h0]; simp)
  have hnc : ∀ ch ∈ c.data, ch ≠ '-' :=
    mem_splitDash_noDash s.data c.data (by rw [h0]; simp)
  have hs : s.data = a.data ++ '-' :: (b.data ++ '-' :: c.data) := by
    have hj := joinDash_splitDash s.data
    rw [h0] at hj
    simpa [joinDash] using hj.symm
  have hsplit' : splitDash (formatDate s).data = [c.data, b.data, a.data] := by
    rw [formatDate_of_splitThree s a b c hsplit]
    show splitDash (c.data ++ '-' :: (b.data ++ '-' :: a.data)) =
      [c.data, b.data, a.data]
    rw [splitDash_append _ _ hnc, splitDash_append _ _ hnb,
      splitDash_of_noDash _ hna]
  have hsplitStr : jsSplitDash (formatDate s) = [c, b, a] := by
    rw [jsSplitDash, hsplit']
    simp [mk_data]
  constructor
  · rw [formatDate_of_splitThree (formatDate s) c b a hsplitStr]
    show String.mk (a.data ++ '-' :: (b.data ++ '-' :: c.data)) = s
    rw [← hs]
  · show jsTemplate ((jsSplitDash (formatDate s)).get? 2) ++ "-" ++
      jsTemplate ((jsSplitDash (formatDate s)).get? 1) ++ "-" ++
      jsTemplate ((jsSplitDash (formatDate s)).get? 0) = s
    rw [hsplitStr]
    show a ++ "-" ++ b ++ "-" ++ c = s
    rw [append_dash (a ++ "-" ++ b) c, append_dash a b, data_mk]
    have hrw : (a.data ++ '-' :: b.data) ++ '-' :: c.data = s.data := by
      rw [hs, List.append_assoc]
      rfl
    rw [hrw, mk_data]

/-- Witness for C10 at the date `"25-07-2024"`. -/
theorem formatDate_involution_witness :
    jsSplitDash "25-07-2024" = ["25", "07", "2024"] ∧
      (formatDate (formatDate "25-07-2024") = "25-07-2024" ∧
        dmyToYmd (formatDate "25-07-2024") = "25-07-2024") :=
  ⟨by decide, formatDate_involution "25-07-2024" "25" "07" "2024"
    (by decide) (by decide) (by decide) (by decide)⟩

/-- C4: for a year whose twelve monthly queries (issued in order 1..12) all
return data, the synchronizer takes each month's first and last returned
day, reformats every date from year-month-day to day-month-year, and
returns the ordered list of `[gregorianFirstDate, hijriFirstDate,
hijriLastDate]` triples for all 12 months — the same list whatever the
prior state of the persistence table. -/
theorem updateOfficialHijriCalendar_answer (upstream : Nat → List DayPair)
    (fd ld : Nat → DayPair)
    (h : ∀ m ∈ List.range' 1 12, (upstream m).head? = some (fd m) ∧
      (upstream m).getLast? = some (ld m))
    (t : HijriTable) :
    (updateOfficialHijriCalendar upstream t).map Prod.fst =
      some ((List.range' 1 12).map (fun m =>
        [formatDate (fd m).gregorian, formatDate (fd m).hijri,
          formatDate (ld m).hijri])) := by
  have hcal : fetchMonthlyAnnouncements upstream =
      (List.range' 1 12).map (fun m => (m, some (fd m), some (ld m))) := by
    rw [fetchMonthlyAnnouncements]
    apply List.map_congr_left
    intro m hm
    obtain ⟨h1, h2⟩ := h m hm
    rw [h1, h2]
  have hall : allSome ((List.range' 1 12).map
      (fun m => (m, some (fd m), some (ld m)))) := by
    intro e he
    obtain ⟨m, _, rfl⟩ := List.mem_map.mp he
    exact ⟨rfl, rfl⟩
  rw [updateOfficialHijriCalendar, hcal]
  rw [if_neg (by simp [List.range'_eq_nil])]
  rw [syncGo_eq_of_allSome _ _ _ hall]
  simp [List.map_map, entryRow, Function.comp_def]

/-- Witness for C4 with a constant upstream table over an empty
persistence table. -/
theorem updateOfficialHijriCalendar_answer_witness :
    (∀ m ∈ List.range' 1 12, (hijriUpstreamEx2 m).head? = some dayPairEx ∧
      (hijriUpstreamEx2 m).getLast? = some dayPairEx) ∧
    (updateOfficialHijriCalendar hijriUpstreamEx2 []).map Prod.fst =
      some ((List.range' 1 12).map (fun _ =>
        [formatDate dayPairEx.gregorian, formatDate dayPairEx.hijri,
          formatDate dayPairEx.hijri])) :=
  ⟨by decide, updateOfficialHijriCalendar_answer hijriUpstreamEx2
    (fun _ => dayPairEx) (fun _ => dayPairEx) (by decide) []⟩

/-- C3 counterexample: the value the synchronizer writes into the key
(`month`) column is the reformatted Gregorian date of the month's first
day, not the month index 1..12: with a concrete upstream table every
written key is `"01-01-2025"`, while the claim's keys would be
`"1" .. "12"`. -/
theorem updateOfficialHijriCalendar_key_counterexample :
    (updateOfficialHijriCalendar hijriUpstreamCx []).map
        (fun p => p.1.map (fun row => row.headD "")) =
      some (List.replicate 12 "01-01-2025")
    ∧ (updateOfficialHijriCalendar hijriUpstreamCx []).map
        (fun p => p.1.map (fun row => row.headD "")) ≠
      some ((List.range' 1 12).map (fun m => toString m)) := by decide

/-- C3 amended: the boundary upsert is keyed by the value written into the
`month` column — the formatted Gregorian first-day date, not the month
index — and on key conflict leaves the stored values unchanged; hence a
second synchronization of an already-populated year returns the same
answer and leaves the table identical, never rewriting a stored row. -/
theorem updateOfficialHijriCalendar_idempotent (upstream : Nat → List DayPair)
    (t : HijriTable) (answer : List (List String)) (t' : HijriTable)
    (h : updateOfficialHijriCalendar upstream t = some (answer, t')) :
    updateOfficialHijriCalendar upstream t' = some (answer, t')
    ∧ (∀ k r, lookupBoundary t k = some r → lookupBoundary t' k = some r)
    ∧ (∀ row ∈ answer, hasKey t' (row.headD "") = true) := by
  rw [updateOfficialHijriCalendar,
    if_neg (by simp [fetchMonthlyAnnouncements, List.range'_eq_nil])] at h
  have hall : allSome (fetchMonthlyAnnouncements upstream) :=
    allSome_of_syncGo_some _ _ _ _ h
  have hchar := syncGo_eq_of_allSome (fetchMonthlyAnnouncements upstream) [] t hall
  rw [h] at hchar
  have hans : answer = (fetchMonthlyAnnouncements upstream).map entryRow := by
    have := (Option.some.injEq _ _).mp hchar
    simpa using congrArg Prod.fst this
  have htab : t' = (fetchMonthlyAnnouncements upstream).foldl stepTable t := by
    have := (Option.some.injEq _ _).mp hchar
    simpa using congrArg Prod.snd this
  refine ⟨?_, ?_, ?_⟩
  · rw [updateOfficialHijriCalendar,
      if_neg (by simp [fetchMonthlyAnnouncements, List.range'_eq_nil]),
      syncGo_eq_of_allSome _ _ _ hall, htab, foldl_stepTable_idem _ _ hall]
    rw [hans]
    simp
  · intro k r hk
    rw [htab]
    exact lookupBoundary_foldl_stepTable _ _ _ _ hk
  · intro row hrow
    rw [hans] at hrow
    obtain ⟨e, he, rfl⟩ := List.mem_map.mp hrow
    obtain ⟨hs1, hs2⟩ := hall e he
    obtain ⟨m, of, ol⟩ := e
    obtain ⟨fdv, rfl⟩ := Option.isSome_iff_exists.mp hs1
    obtain ⟨ldv, rfl⟩ := Option.isSome_iff_exists.mp hs2
    have hk : (entryRow (m, some fdv, some ldv)).headD "" =
        entryKey (m, some fdv, some ldv) := rfl
    rw [hk, htab]
    exact hasKey_foldl_entryKey _ _ hall _ he

/-- Witness for the amended C3: a full sync from the empty table followed by
a resync from the produced table returns the identical answer and table. -/
theorem updateOfficialHijriCalendar_idempotent_witness :
    updateOfficialHijriCalendar hijriUpstreamEx [] =
      some (hijriAnswerEx, hijriTableEx)
    ∧ updateOfficialHijriCalendar hijriUpstreamEx hijriTableEx =
      some (hijriAnswerEx, hijriTableEx) :=
  ⟨by decide, (updateOfficialHijriCalendar_idempotent hijriUpstreamEx []
    hijriAnswerEx hijriTableEx (by decide)).1⟩
